import Mathlib

/-!
Verification development for the drawing-dimension extractor (`src/app.py`).

Text is modelled as `List Char`.  Python floats are modelled as exact rationals
(`ℚ`): every numeric literal the program parses is a short decimal or small
fraction, and the program only ever stores and prints these values, so IEEE
rounding is abstracted away.  Each regular expression of the source is compiled
by hand into a deterministic scanner; where the Python engine's backtracking
can produce additional matches, the corresponding case is noted in the doc
comment of the scanner together with the argument for why the surrounding code
treats it identically.
-/

namespace DrawingExtractor

/-- Text as a list of characters. -/
abbrev Str := List Char

/-- String literal helper. -/
def chars (s : String) : Str := s.toList

/-- Whitespace characters: the regex class `\s` and the characters stripped by
`str.strip()` (ASCII repertoire). -/
def isSpace (c : Char) : Bool :=
  c == ' ' || c == '\t' || c == '\n' || c == '\r' || c == '\x0b' || c == '\x0c'

/-- ASCII decimal digits: the regex class `\d`. -/
def isDigit (c : Char) : Bool := '0' ≤ c && c ≤ '9'

def isAsciiLetter (c : Char) : Bool := ('A' ≤ c && c ≤ 'Z') || ('a' ≤ c && c ≤ 'z')

/-- The regex class `\w` (Python: Unicode word characters).  Modelled over the
character repertoire of this domain: ASCII letters, digits, underscore, and the
letter Ø (a Unicode letter, hence a word character in Python).  The drawing
symbols ±, °, ⌖, ↗ and whitespace are not word characters. -/
def isWordChar (c : Char) : Bool := isAsciiLetter c || isDigit c || c == '_' || c == 'Ø'

/-- Python `str.upper()` on the ASCII letters; other characters of this domain
(digits, punctuation, ±, °, Ø, ⌖, ↗) are unchanged by `upper()`. -/
def upChar : Char → Char
  | 'a' => 'A'
  | 'b' => 'B'
  | 'c' => 'C'
  | 'd' => 'D'
  | 'e' => 'E'
  | 'f' => 'F'
  | 'g' => 'G'
  | 'h' => 'H'
  | 'i' => 'I'
  | 'j' => 'J'
  | 'k' => 'K'
  | 'l' => 'L'
  | 'm' => 'M'
  | 'n' => 'N'
  | 'o' => 'O'
  | 'p' => 'P'
  | 'q' => 'Q'
  | 'r' => 'R'
  | 's' => 'S'
  | 't' => 'T'
  | 'u' => 'U'
  | 'v' => 'V'
  | 'w' => 'W'
  | 'x' => 'X'
  | 'y' => 'Y'
  | 'z' => 'Z'
  | c => c

/-- Python `line.upper()`. -/
def upperStr (l : Str) : Str := l.map upChar

/-- Python `line.strip()`: drop whitespace from both ends. -/
def pyStrip (l : Str) : Str :=
  ((l.dropWhile isSpace).reverse.dropWhile isSpace).reverse

/-- Python `l.startswith(p)` (p a prefix of l). -/
def strStarts : Str → Str → Bool
  | [], _ => true
  | _ :: _, [] => false
  | p :: ps, c :: cs => p == c && strStarts ps cs

/-- Python's `p in l`: contiguous-substring test. -/
def strHas (p : Str) : Str → Bool
  | [] => p.isEmpty
  | c :: r => strStarts p (c :: r) || strHas p r

/-- Model of `re.search`: try the position matcher on every suffix, leftmost first
(including the empty suffix at the end of the text). -/
def reSearch {α : Type} (f : Str → Option α) : Str → Option α
  | [] => f []
  | c :: r =>
    match f (c :: r) with
    | some a => some a
    | none => reSearch f r

/-- Boolean `re.search` (existence only). -/
def reFind (f : Str → Bool) : Str → Bool
  | [] => f []
  | c :: r => f (c :: r) || reFind f r

/-- Python `str.splitlines()` for the terminators \n, \r and \r\n. -/
def splitLinesAux (cur : Str) : Str → List Str
  | [] => if cur.isEmpty then [] else [cur.reverse]
  | '\r' :: '\n' :: rest => cur.reverse :: splitLinesAux [] rest
  | '\n' :: rest => cur.reverse :: splitLinesAux [] rest
  | '\r' :: rest => cur.reverse :: splitLinesAux [] rest
  | c :: rest => splitLinesAux (c :: cur) rest

def splitLines (l : Str) : List Str := splitLinesAux [] l

/-- Python `int(...)` on a digit string. -/
def digitsToNat (l : Str) : Nat :=
  l.foldl (fun a c => a * 10 + (c.toNat - '0'.toNat)) 0

/-- Value of the decimal literal `d1.d2` (exact rational model of `float(...)`),
written as one quotient so that it evaluates by kernel reduction; the lemma
`decimalToQ_eq` below shows it equals the positional expression
integer part + fraction part / 10 ^ digits. -/
def decimalToQ (d1 d2 : Str) : ℚ :=
  Rat.divInt (digitsToNat d1 * 10 ^ d2.length + digitsToNat d2) (10 ^ d2.length)

/-- Exact value of `float(num)/float(den)` (defined only under the caller's
zero-denominator guard); `fracToQ_eq` shows it equals the quotient. -/
def fracToQ (n d : Str) : ℚ := Rat.divInt (digitsToNat n) (digitsToNat d)

/-- Exact value of `float(whole) + float(num)/float(den)` (defined only under
the caller's zero-denominator guard); `mixedToQ_eq` shows it equals that sum. -/
def mixedToQ (w n d : Str) : ℚ :=
  Rat.divInt (digitsToNat w * digitsToNat d + digitsToNat n) (digitsToNat d)

/-!  Position matchers for the nominal-value patterns of `parse_dimension`
(lines 27-32 of app.py).  Each one decides whether its regex matches at the
start of the given suffix; greedy quantifier semantics are deterministic here
because every `\d+` is followed by a non-digit requirement, so shortening a
digit run can never help the Python engine. -/

/-- Pattern `\d+\.\d+` at a position: digit run, dot, digit run; returns both digit
groups and the remaining text. -/
def matchDecAt (l : Str) : Option (Str × Str × Str) :=
  let d1 := l.takeWhile isDigit
  if d1.isEmpty then none else
  match l.dropWhile isDigit with
  | c :: r =>
    if c = '.' then
      let d2 := r.takeWhile isDigit
      if d2.isEmpty then none else some (d1, d2, r.dropWhile isDigit)
    else none
  | [] => none

/-- Pattern `\d+` at a position. -/
def matchIntAt (l : Str) : Option Str :=
  let d := l.takeWhile isDigit
  if d.isEmpty then none else some d

/-- Pattern `\d+/\d+` at a position. -/
def matchFracAt (l : Str) : Option (Str × Str) :=
  let n := l.takeWhile isDigit
  if n.isEmpty then none else
  match l.dropWhile isDigit with
  | c :: r =>
    if c = '/' then
      let dn := r.takeWhile isDigit
      if dn.isEmpty then none else some (n, dn)
    else none
  | [] => none

/-- Pattern `\d+\s\d+/\d+` at a position (mixed number; `\s` is a single character). -/
def matchMixedAt (l : Str) : Option (Str × Str × Str) :=
  let w := l.takeWhile isDigit
  if w.isEmpty then none else
  match l.dropWhile isDigit with
  | c :: r =>
    if isSpace c then
      let n := r.takeWhile isDigit
      if n.isEmpty then none else
      match r.dropWhile isDigit with
      | c2 :: r2 =>
        if c2 = '/' then
          let dn := r2.takeWhile isDigit
          if dn.isEmpty then none else some (w, n, dn)
        else none
      | [] => none
    else none
  | [] => none

/-- Mixed-number stage of the nominal-value loop: `float(whole)+float(num)/float(den)`;
a denominator of zero raises ZeroDivisionError, which the loop turns into a
non-match (`continue`), leaving `nominal = None`. -/
def nominalMixed (l : Str) : Option ℚ :=
  match reSearch matchMixedAt l with
  | some (w, n, dn) =>
    if digitsToNat dn ≠ 0 then some (mixedToQ w n dn) else none
  | none => none

/-- The nominal-value loop of `parse_dimension` (app.py lines 27-52): patterns
decimal, whole number, fraction, mixed number, first match wins; a conversion
failure (only possible as a zero denominator) falls through to the next
pattern.  The `'/' in val_str` / `' ' in val_str` dispatch of the source is
resolved statically: a decimal or integer group never contains `/`, a simple
fraction contains `/` but no space, a mixed-number group contains both. -/
def nominalOf (l : Str) : Option ℚ :=
  match reSearch matchDecAt l with
  | some (d1, d2, _) => some (decimalToQ d1 d2)
  | none =>
    match reSearch matchIntAt l with
    | some d => some ((digitsToNat d : ℚ))
    | none =>
      match reSearch matchFracAt l with
      | some (n, dn) =>
        if digitsToNat dn ≠ 0 then some (fracToQ n dn) else nominalMixed l
      | none => nominalMixed l

/-!  Position matchers for the tolerance patterns (app.py lines 55-62).  Each
returns the full matched text (group 1 of the regex). -/

/-- Pattern `±\s*\d+\.\d+` at a position. -/
def mt1At : Str → Option Str
  | c :: r =>
    if c = '±' then
      let w := r.takeWhile isSpace
      match matchDecAt (r.dropWhile isSpace) with
      | some (d1, d2, _) => some ('±' :: (w ++ d1 ++ '.' :: d2))
      | none => none
    else none
  | [] => none

/-- Pattern `±\s*\d+` at a position. -/
def mt2At : Str → Option Str
  | c :: r =>
    if c = '±' then
      let w := r.takeWhile isSpace
      let d := (r.dropWhile isSpace).takeWhile isDigit
      if d.isEmpty then none else some ('±' :: (w ++ d))
    else none
  | [] => none

/-- Pattern `[+]\d+\.\d+` then `/` `-` then `\d+\.\d+` at a position (the asymmetric decimal form). -/
def mt3At : Str → Option Str
  | c :: r =>
    if c = '+' then
      match matchDecAt r with
      | some (a1, a2, r2) =>
        match r2 with
        | c1 :: c2 :: r3 =>
          if c1 = '/' ∧ c2 = '-' then
            match matchDecAt r3 with
            | some (b1, b2, _) =>
              some ('+' :: (a1 ++ '.' :: a2 ++ '/' :: '-' :: (b1 ++ '.' :: b2)))
            | none => none
          else none
        | _ => none
      | none => none
    else none
  | [] => none

/-- Pattern `[+]\d+` then `/` `-` then `\d+` at a position (the asymmetric integer form). -/
def mt4At : Str → Option Str
  | c :: r =>
    if c = '+' then
      let d1 := r.takeWhile isDigit
      if d1.isEmpty then none else
      match r.dropWhile isDigit with
      | c1 :: c2 :: r2 =>
        if c1 = '/' ∧ c2 = '-' then
          let d2 := r2.takeWhile isDigit
          if d2.isEmpty then none else some ('+' :: (d1 ++ '/' :: '-' :: d2))
        else none
      | _ => none
    else none
  | [] => none

/-- Pattern `[+\-]\d+\.\d+` at a position. -/
def mt5At : Str → Option Str
  | c :: r =>
    if c = '+' ∨ c = '-' then
      match matchDecAt r with
      | some (d1, d2, _) => some (c :: (d1 ++ '.' :: d2))
      | none => none
    else none
  | [] => none

/-- Pattern `[+\-]\d+` at a position. -/
def mt6At : Str → Option Str
  | c :: r =>
    if c = '+' ∨ c = '-' then
      let d := r.takeWhile isDigit
      if d.isEmpty then none else some (c :: d)
    else none
  | [] => none

/-- Python `.replace(' ', '')`: removes spaces only (not tabs or newlines). -/
def removeSpaces (l : Str) : Str := l.filter (fun c => c != ' ')

/-- The tolerance loop of `parse_dimension` (app.py lines 55-68): six patterns
searched in order, first match wins, spaces stripped from the matched text;
hardcoded fallback "±0.10". -/
def tolOf (l : Str) : Str :=
  match reSearch mt1At l with
  | some m => removeSpaces m
  | none =>
    match reSearch mt2At l with
    | some m => removeSpaces m
    | none =>
      match reSearch mt3At l with
      | some m => removeSpaces m
      | none =>
        match reSearch mt4At l with
        | some m => removeSpaces m
        | none =>
          match reSearch mt5At l with
          | some m => removeSpaces m
          | none =>
            match reSearch mt6At l with
            | some m => removeSpaces m
            | none => chars "±0.10"

/-- Pattern `M\d+` at a position. -/
def mNumAt : Str → Bool
  | c :: c2 :: _ => c == 'M' && isDigit c2
  | _ => false

/-- Pattern `\d+\s*[Xx]\s*\d+°` at a position. -/
def chamAt (l : Str) : Bool :=
  let d1 := l.takeWhile isDigit
  if d1.isEmpty then false else
  match (l.dropWhile isDigit).dropWhile isSpace with
  | c :: r2 =>
    if c = 'X' ∨ c = 'x' then
      let r3 := ((r2.dropWhile isSpace).dropWhile isDigit)
      let d2 := (r2.dropWhile isSpace).takeWhile isDigit
      if d2.isEmpty then false else
      match r3 with
      | c2 :: _ => c2 == '°'
      | [] => false
    else false
  | [] => false

/-- Model of the `re.search(r"\bC\b", ...)`-style standalone-token test: the character `t`
occurs with a word boundary on both sides. -/
def standaloneAux (t : Char) (prevWord : Bool) : Str → Bool
  | [] => false
  | c :: r =>
    (c == t && !prevWord &&
      (match r with
       | [] => true
       | c2 :: _ => !isWordChar c2)) ||
    standaloneAux t (isWordChar c) r

def standalone (t : Char) (l : Str) : Bool := standaloneAux t false l

/-- The parameter-type / instrument classification chain of `parse_dimension`
(app.py lines 70-112): first matching branch wins. -/
def classify (l : Str) : Str × Str :=
  if strHas (chars "Ø") l || strHas (chars "DIA") l || strHas (chars "DIAM") l ||
     strHas (chars "DIAMETER") (upperStr l) then
    (chars "Diameter", chars "DVC")
  else if strStarts (chars "R") l || strHas (chars "RADIUS") (upperStr l) ||
     strHas (chars " R ") l then
    (chars "Radius", chars "VMS/IMM")
  else if reFind mNumAt l || strHas (chars "THREAD") (upperStr l) then
    (chars "Thread", chars "Thread Gauge")
  else if (strHas (chars "°") l &&
      (strHas (chars "X") (upperStr l) || strHas (chars "CHAM") (upperStr l) ||
       strHas (chars "CHAMFER") (upperStr l))) || reFind chamAt l then
    (chars "Chamfer", chars "VMS/IMM")
  else if strHas (chars "°") l || strHas (chars "ANGLE") (upperStr l) ||
     strHas (chars "DEG") (upperStr l) then
    (chars "Angle", chars "VMS/IMM")
  else if strHas (chars "Ra") l || strHas (chars "Rz") l || strHas (chars "Rt") l ||
     strHas (chars "SURFACE") (upperStr l) then
    (chars "Surface Roughness", chars "Surface Tester")
  else if strHas (chars "⌖") l || strHas (chars "↗") l ||
     strHas (chars "CONC") (upperStr l) || strHas (chars "RUNOUT") (upperStr l) then
    (chars "Concentricity/Runout", chars "CMM")
  else
    (chars "Length", chars "DVC")

/-- The inspection-type chain of `parse_dimension` (app.py lines 115-120). -/
def typOf (l : Str) : Str :=
  if standalone 'C' (upperStr l) || strHas (chars "CRITICAL") (upperStr l) then
    chars "C"
  else if standalone 'S' (upperStr l) || strHas (chars "SPEC") (upperStr l) then
    chars "S"
  else if strHas (chars "KEY") (upperStr l) || strHas (chars "MAJOR") (upperStr l) then
    chars "K"
  else []

/-- Result of `parse_dimension`: (desc, nominal, tol, typ, inst). -/
structure ParseResult where
  desc : Str
  nominal : Option ℚ
  tol : Str
  typ : Str
  inst : Str
deriving DecidableEq

/-- Function `parse_dimension` (app.py lines 12-122). -/
def parse_dimension (line : Str) : ParseResult :=
  let l := pyStrip line
  { desc := (classify l).1
    nominal := nominalOf l
    tol := tolOf l
    typ := typOf l
    inst := (classify l).2 }

/-!  Balloon-number segmentation (app.py lines 159-179). -/

/-- Pattern `^(\d+)\s+(.+)` (re.match is anchored).  If the text ends inside the
whitespace run the Python engine backtracks and captures whitespace as group 2,
which strips to the empty string and is then discarded by the caller exactly
like a failed match; that case is modelled as no match. -/
def match1 (l : Str) : Option (Str × Str) :=
  let d := l.takeWhile isDigit
  if d.isEmpty then none else
  let r1 := l.dropWhile isDigit
  let w := r1.takeWhile isSpace
  if w.isEmpty then none else
  let g := (r1.dropWhile isSpace).takeWhile (fun c => c != '\n')
  if g.isEmpty then none else some (d, g)

/-- Pattern `^\((\d+)\)\s*(.+)`.  Same remark as `match1` for the backtracking case. -/
def match2 : Str → Option (Str × Str)
  | c :: r =>
    if c = '(' then
      let d := r.takeWhile isDigit
      if d.isEmpty then none else
      match r.dropWhile isDigit with
      | c2 :: r2 =>
        if c2 = ')' then
          let g := (r2.dropWhile isSpace).takeWhile (fun x => x != '\n')
          if g.isEmpty then none else some (d, g)
        else none
      | [] => none
    else none
  | [] => none

/-- Pattern `^(\d+)[\.\-\:]\s*(.+)`.  Same remark as `match1` for the backtracking case. -/
def match3 (l : Str) : Option (Str × Str) :=
  let d := l.takeWhile isDigit
  if d.isEmpty then none else
  match l.dropWhile isDigit with
  | c :: r =>
    if c = '.' ∨ c = '-' ∨ c = ':' then
      let g := (r.dropWhile isSpace).takeWhile (fun x => x != '\n')
      if g.isEmpty then none else some (d, g)
    else none
  | [] => none

/-- Pattern `(\d+)\s*[^\d\w]*(.+)` anchored at the start (re.match).  Since `\s` and
`\d` are contained in `[^\w]`-complement classes, `\s*[^\d\w]*` matches one
maximal run of non-word characters.  When the text ends inside the digits or
the filler run, the Python engine backtracks, but every such backtracked match
captures exactly one character as group 2 (any longer capture would contradict
the maximality of the backtracking position), so the caller's `len > 1` test
discards it; those cases are modelled as no match. -/
def match4 (l : Str) : Option (Str × Str) :=
  let d := l.takeWhile isDigit
  if d.isEmpty then none else
  let r := l.dropWhile isDigit
  let g := (r.dropWhile (fun c => !isWordChar c)).takeWhile (fun c => c != '\n')
  if g.isEmpty then none else some (d, g)

/-- One row of the output table. -/
structure DimRecord where
  itemNumber : Int
  parameter : Str
  nominal : Option ℚ
  tol : Str
  typ : Str
  inst : Str
  page : Str
deriving DecidableEq

/-- Build the row appended at app.py line 176. -/
def recordOf (pageNum : Nat) (itm : Nat) (txt : Str) : DimRecord :=
  let p := parse_dimension txt
  { itemNumber := (itm : Int)
    parameter := p.desc
    nominal := p.nominal
    tol := p.tol
    typ := p.typ
    inst := p.inst
    page := chars "Page " ++ Nat.toDigits 10 pageNum }

/-- Check `if dim_text and len(dim_text) > 1` applied to one balloon-pattern result:
strip the captured remainder and keep it only when longer than one character. -/
def tryPat (m : Option (Str × Str)) : Option (Nat × Str) :=
  match m with
  | some (d, g) =>
    let t := pyStrip g
    if 1 < t.length then some (digitsToNat d, t) else none
  | none => none

/-- The balloon-pattern loop (app.py lines 160-179): patterns tried in order;
a pattern that fails to match, or matches with a too-short remainder, falls
through to the next pattern (the `break` runs only after a row is appended). -/
def balloonScan (l : Str) : Option (Nat × Str) :=
  match tryPat (match1 l) with
  | some r => some r
  | none =>
    match tryPat (match2 l) with
    | some r => some r
    | none =>
      match tryPat (match3 l) with
      | some r => some r
      | none => tryPat (match4 l)

/-- Per-line processing (app.py lines 154-179): strip, skip empty lines, run
the balloon scan, and build a row from the parsed dimension text. -/
def processLine (pageNum : Nat) (line : Str) : Option DimRecord :=
  let l := pyStrip line
  if l.isEmpty then none else
  match balloonScan l with
  | some (n, t) => some (recordOf pageNum n t)
  | none => none

/-- One page of the document, as seen through the three text-recovery methods
of PyMuPDF (external library, modelled at its boundary): the raw "text" string,
the span texts of the "dict" structure in document order, and the block texts
(`block[4]`) of the "blocks" structure. -/
structure Page where
  textContent : Str
  dictSpans : List Str
  blockTexts : List Str

/-- Lines recovered from the "text" method: `splitlines()` (app.py line 141). -/
def pageTextLines (pg : Page) : List Str := splitLines pg.textContent

/-- Lines recovered from the "dict" method (app.py lines 143-150): each span
text is stripped and kept when non-empty. -/
def pageDictLines (pg : Page) : List Str :=
  (pg.dictSpans.map pyStrip).filter (fun s => !s.isEmpty)

/-- Lines recovered from the "blocks" method (app.py line 152). -/
def pageBlockLines (pg : Page) : List Str := pg.blockTexts

/-- The per-page method loop (app.py lines 139-183): methods in order text,
dict, blocks; after each method, `if data: break` checks the rows accumulated
so far (over the whole document, not just this method or page). -/
def runPage (data : List DimRecord) (pageNum : Nat) (pg : Page) : List DimRecord :=
  let d1 := data ++ (pageTextLines pg).filterMap (processLine pageNum)
  if d1.isEmpty then
    let d2 := d1 ++ (pageDictLines pg).filterMap (processLine pageNum)
    if d2.isEmpty then
      d2 ++ (pageBlockLines pg).filterMap (processLine pageNum)
    else d2
  else d1

def extractAux (data : List DimRecord) (pageNum : Nat) : List Page → List DimRecord
  | [] => data
  | pg :: rest => extractAux (runPage data pageNum pg) (pageNum + 1) rest

/-- Function `extract_dimensions_from_pdf` (app.py lines 124-186), with pages numbered
from 1 (`enumerate(doc, 1)`). -/
def extract_dimensions_from_pdf (doc : List Page) : List DimRecord :=
  extractAux [] 1 doc

/-- Rows produced by running one recovery method over every page. -/
def stratRecords (f : Page → List Str) (pageNum : Nat) : List Page → List DimRecord
  | [] => []
  | pg :: rest => (f pg).filterMap (processLine pageNum) ++ stratRecords f (pageNum + 1) rest

/-- Modelled from the spec: the document-level strategy policy it prescribes
("run strategy 1 over all pages, check if any record resulted, else fall
through to strategy 2, etc. — do not mix results from different strategies
within one document"), used to compare the code against the specified policy. -/
def specStrategyPolicy (doc : List Page) : List DimRecord :=
  let r1 := stratRecords pageTextLines 1 doc
  if !r1.isEmpty then r1 else
  let r2 := stratRecords pageDictLines 1 doc
  if !r2.isEmpty then r2 else
  stratRecords pageBlockLines 1 doc

/-- A two-page document: page 1 exposes a callout only through the dict/span
method, page 2 exposes one through the plain-text method. -/
def sampleDocMix : List Page :=
  [⟨chars "", [chars "1 25.4"], []⟩, ⟨chars "2 30.5", [], []⟩]

/-- A one-page document whose only callout line carries balloon number 0. -/
def sampleDocZero : List Page := [⟨chars "0 ABC", [], []⟩]

/-- The row extracted from `sampleDocZero`. -/
def zeroRecord : DimRecord :=
  ⟨0, chars "Length", none, chars "±0.10", [], chars "DVC", chars "Page 1"⟩

/-- A concrete row, used as pre-existing data when exercising the page loop. -/
def sampleRecord : DimRecord :=
  ⟨1, chars "Length", some (25.4 : ℚ), chars "±0.10", [], chars "DVC", chars "Page 1"⟩

/-- A concrete page whose plain-text content holds one callout line. -/
def samplePage2 : Page := ⟨chars "2 30.5", [], []⟩

/-!  ## Theorems -/

/-- Claim C1: the claim says the tolerance fallback is the caller-configured
default string; in the code `parse_dimension` takes no such parameter and the
fallback is the hardcoded constant "±0.10" (the `default_tolerance`
configuration value is never passed in), shown here on a line in which no
tolerance pattern matches. -/
theorem c1_tolerance_fallback_hardcoded :
    (parse_dimension (chars "no numeric content")).tol = chars "±0.10" := by
  decide

/-- Claim C4: on a line carrying its value as a simple fraction "3/4" the
nominal value is 3, not 3 ÷ 4, and on the mixed number "1 1/2" it is 1, not
1.5: the whole-number pattern precedes the fraction patterns and any fraction
contains a digit run, so the fraction-conversion branches never run. -/
theorem c4_integer_beats_fraction :
    (parse_dimension (chars "3/4")).nominal = some 3 ∧
    (parse_dimension (chars "1 1/2")).nominal = some 1 := by
  decide

/-- Claim C9: the literal line "1 25.4 ±0.1 C" yields exactly the record
(itemNumber 1, Length, 25.4, "±0.1", "C", "DVC"). -/
theorem c9_roundtrip :
    extract_dimensions_from_pdf [⟨chars "1 25.4 ±0.1 C", [], []⟩] =
      [⟨1, chars "Length", some (25.4 : ℚ), chars "±0.1", chars "C", chars "DVC",
        chars "Page 1"⟩] := by
  rw [show (25.4 : ℚ) = Rat.divInt 254 10 by norm_num [Rat.divInt_eq_div]]
  decide

/-- Claim C10: on the line "±0.05", whose only numeric content lies inside the
tolerance expression, the nominal value is taken from within that tolerance
text (0.05) rather than left absent. -/
theorem c10_nominal_from_tolerance :
    (parse_dimension (chars "±0.05")).nominal = some (0.05 : ℚ) ∧
    (parse_dimension (chars "±0.05")).tol = chars "±0.05" := by
  rw [show (0.05 : ℚ) = Rat.divInt 5 100 by norm_num [Rat.divInt_eq_div]]
  decide

/-- Claim C6, counterexample: the line "±0.1 ±0.05" contains "±0.05", yet the
tolerance comes out as "±0.1", because the ±-decimal pattern is satisfied by an
earlier occurrence and the first match wins. -/
theorem c6_counterexample :
    strHas (chars "±0.05") (chars "±0.1 ±0.05") = true ∧
    (parse_dimension (chars "±0.1 ±0.05")).tol = chars "±0.1" := by
  decide

/-- Claim C3, counterexample: on the line "1 ±" followed by a line break and
"ABCD" (one extracted line, as the blocks method produces), the first
segmentation pattern matches with remainder "±", whose trimmed length is 1,
yet the line is not discarded: the loose fourth pattern still yields a record. -/
theorem c3_counterexample :
    match1 (pyStrip (chars "1 ±\nABCD")) = some (chars "1", chars "±") ∧
    (pyStrip (chars "±")).length ≤ 1 ∧
    processLine 1 (chars "1 ±\nABCD") =
      some ⟨1, chars "Length", none, chars "±0.10", [], chars "DVC", chars "Page 1"⟩ := by
  decide

/-- Claim C7, counterexample: the line "0 ABC" produces a record with
itemNumber 0, so extracted item numbers are not strictly positive. -/
theorem c7_counterexample :
    ∃ r ∈ extract_dimensions_from_pdf sampleDocZero, r.itemNumber = 0 := by
  exact ⟨zeroRecord, by decide, by decide⟩

/-- Claim C2, counterexample: on `sampleDocMix` the code returns a record
recovered by the dict strategy on page 1 together with one recovered by the
plain-text strategy on page 2, while the document-level policy stated by the
claim would return only the plain-text record; the per-page `if data: break`
checks the accumulated list, so strategies mix across pages. -/
theorem c2_counterexample :
    extract_dimensions_from_pdf sampleDocMix =
      [⟨1, chars "Length", some (25.4 : ℚ), chars "±0.10", [], chars "DVC", chars "Page 1"⟩,
       ⟨2, chars "Length", some (30.5 : ℚ), chars "±0.10", [], chars "DVC", chars "Page 2"⟩] ∧
    specStrategyPolicy sampleDocMix =
      [⟨2, chars "Length", some (30.5 : ℚ), chars "±0.10", [], chars "DVC", chars "Page 2"⟩] ∧
    extract_dimensions_from_pdf sampleDocMix ≠ specStrategyPolicy sampleDocMix := by
  rw [show (25.4 : ℚ) = Rat.divInt 254 10 by norm_num [Rat.divInt_eq_div],
      show (30.5 : ℚ) = Rat.divInt 305 10 by norm_num [Rat.divInt_eq_div]]
  refine ⟨by decide, by decide, by decide⟩

/-!  Faithfulness of the single-quotient numeric conversions to the arithmetic
shape of the source expressions. -/

theorem decimalToQ_eq (d1 d2 : Str) :
    decimalToQ d1 d2 = (digitsToNat d1 : ℚ) + (digitsToNat d2 : ℚ) / 10 ^ d2.length := by
  unfold decimalToQ
  rw [Rat.divInt_eq_div]
  have h10 : ((10 : ℚ)) ^ d2.length ≠ 0 := by positivity
  push_cast
  field_simp

theorem fracToQ_eq (n d : Str) :
    fracToQ n d = (digitsToNat n : ℚ) / (digitsToNat d : ℚ) := by
  unfold fracToQ
  rw [Rat.divInt_eq_div]
  push_cast
  ring

theorem mixedToQ_eq (w n d : Str) (h : digitsToNat d ≠ 0) :
    mixedToQ w n d = (digitsToNat w : ℚ) + (digitsToNat n : ℚ) / (digitsToNat d : ℚ) := by
  unfold mixedToQ
  rw [Rat.divInt_eq_div]
  have hd : (digitsToNat d : ℚ) ≠ 0 := by exact_mod_cast h
  push_cast
  field_simp

/-- A property guaranteed by the position matcher holds for any search result. -/
theorem reSearch_pred {α : Type} (f : Str → Option α) (Q : α → Prop)
    (hf : ∀ l a, f l = some a → Q a) : ∀ l a, reSearch f l = some a → Q a := by
  intro l
  induction l with
  | nil => intro a h; exact hf [] a h
  | cons c r ih =>
    intro a h
    simp only [reSearch] at h
    cases hfc : f (c :: r) with
    | none => rw [hfc] at h; exact ih a h
    | some b =>
      rw [hfc] at h
      cases h
      exact hf _ _ hfc

theorem mt1At_shape : ∀ l m, mt1At l = some m → removeSpaces m ≠ [] := by
  intro l m h
  match l with
  | [] => simp [mt1At] at h
  | c :: r =>
    simp only [mt1At] at h
    split at h
    · cases hd : matchDecAt (r.dropWhile isSpace) with
      | none => rw [hd] at h; cases h
      | some t =>
        obtain ⟨d1, d2, rest⟩ := t
        rw [hd] at h
        cases h
        simp [removeSpaces]
    · cases h

theorem mt2At_shape : ∀ l m, mt2At l = some m → removeSpaces m ≠ [] := by
  intro l m h
  match l with
  | [] => simp [mt2At] at h
  | c :: r =>
    simp only [mt2At] at h
    split at h
    · split at h
      · cases h
      · cases h
        simp [removeSpaces]
    · cases h

theorem mt3At_shape : ∀ l m, mt3At l = some m → removeSpaces m ≠ [] := by
  intro l m h
  match l with
  | [] => simp [mt3At] at h
  | c :: r =>
    simp only [mt3At] at h
    repeat' split at h
    all_goals cases h
    all_goals simp [removeSpaces]

theorem mt4At_shape : ∀ l m, mt4At l = some m → removeSpaces m ≠ [] := by
  intro l m h
  match l with
  | [] => simp [mt4At] at h
  | c :: r =>
    simp only [mt4At] at h
    repeat' split at h
    all_goals cases h
    all_goals simp [removeSpaces]

theorem mt5At_shape : ∀ l m, mt5At l = some m → removeSpaces m ≠ [] := by
  intro l m h
  match l with
  | [] => simp [mt5At] at h
  | c :: r =>
    simp only [mt5At] at h
    split at h
    · rename_i hc
      cases hd : matchDecAt r with
      | none => rw [hd] at h; cases h
      | some t =>
        obtain ⟨d1, d2, rest⟩ := t
        rw [hd] at h
        cases h
        rcases hc with hc | hc <;> subst hc <;> simp [removeSpaces]
    · cases h

theorem mt6At_shape : ∀ l m, mt6At l = some m → removeSpaces m ≠ [] := by
  intro l m h
  match l with
  | [] => simp [mt6At] at h
  | c :: r =>
    simp only [mt6At] at h
    split at h
    · rename_i hc
      split at h
      · cases h
      · cases h
        rcases hc with hc | hc <;> subst hc <;> simp [removeSpaces]
    · cases h

/-- The tolerance field is never empty: matched text keeps its sign character
and the fallback is the nonempty constant. -/
theorem tolOf_ne_nil (l : Str) : tolOf l ≠ [] := by
  unfold tolOf
  cases h1 : reSearch mt1At l with
  | some m => exact reSearch_pred mt1At _ mt1At_shape l m h1
  | none =>
  cases h2 : reSearch mt2At l with
  | some m => exact reSearch_pred mt2At _ mt2At_shape l m h2
  | none =>
  cases h3 : reSearch mt3At l with
  | some m => exact reSearch_pred mt3At _ mt3At_shape l m h3
  | none =>
  cases h4 : reSearch mt4At l with
  | some m => exact reSearch_pred mt4At _ mt4At_shape l m h4
  | none =>
  cases h5 : reSearch mt5At l with
  | some m => exact reSearch_pred mt5At _ mt5At_shape l m h5
  | none =>
  cases h6 : reSearch mt6At l with
  | some m => exact reSearch_pred mt6At _ mt6At_shape l m h6
  | none => decide

/-- The classification chain always produces one of the eight fixed
type/instrument pairs. -/
theorem classify_mem (l : Str) :
    classify l ∈
      [(chars "Diameter", chars "DVC"), (chars "Radius", chars "VMS/IMM"),
       (chars "Thread", chars "Thread Gauge"), (chars "Chamfer", chars "VMS/IMM"),
       (chars "Angle", chars "VMS/IMM"), (chars "Surface Roughness", chars "Surface Tester"),
       (chars "Concentricity/Runout", chars "CMM"), (chars "Length", chars "DVC")] := by
  unfold classify
  repeat' split
  all_goals decide

/-- The inspection-type chain always produces one of the four fixed flags. -/
theorem typOf_mem (l : Str) :
    typOf l ∈ [[], chars "C", chars "S", chars "K"] := by
  unfold typOf
  repeat' split
  all_goals decide

/-- Claim C8: the classifier is total with defined fallbacks: for every input
string the parameter type and instrument form one of the eight fixed pairs
(default Length/"DVC"), the inspection flag is one of "", "C", "S", "K"
(default empty), and the tolerance is never empty (default "±0.10"); the
nominal value is optional, and a zero denominator during fraction conversion
is treated as a non-match by construction of `nominalOf`. -/
theorem c8_classifier_total (s : Str) :
    ((parse_dimension s).desc, (parse_dimension s).inst) ∈
      [(chars "Diameter", chars "DVC"), (chars "Radius", chars "VMS/IMM"),
       (chars "Thread", chars "Thread Gauge"), (chars "Chamfer", chars "VMS/IMM"),
       (chars "Angle", chars "VMS/IMM"), (chars "Surface Roughness", chars "Surface Tester"),
       (chars "Concentricity/Runout", chars "CMM"), (chars "Length", chars "DVC")] ∧
    (parse_dimension s).typ ∈ [[], chars "C", chars "S", chars "K"] ∧
    (parse_dimension s).tol ≠ [] := by
  refine ⟨?_, ?_, ?_⟩
  · have h := classify_mem (pyStrip s)
    simpa [parse_dimension] using h
  · have h := typOf_mem (pyStrip s)
    simpa [parse_dimension] using h
  · have h := tolOf_ne_nil (pyStrip s)
    simpa [parse_dimension] using h

/-!  Substring and stripping lemmas. -/

theorem strStarts_append (p t : Str) : strStarts p (p ++ t) = true := by
  induction p with
  | nil => simp [strStarts]
  | cons c ps ih => simpa [strStarts] using ih

theorem strStarts_exists {p l : Str} (h : strStarts p l = true) : ∃ t, l = p ++ t := by
  induction p generalizing l with
  | nil => exact ⟨l, rfl⟩
  | cons c ps ih =>
    match l with
    | [] => simp [strStarts] at h
    | d :: ls =>
      simp only [strStarts, Bool.and_eq_true, beq_iff_eq] at h
      obtain ⟨h1, h2⟩ := h
      subst h1
      obtain ⟨t, rfl⟩ := ih h2
      exact ⟨t, rfl⟩

theorem strHas_nil (l : Str) : strHas [] l = true := by
  cases l <;> simp [strHas, strStarts]

theorem strHas_parts {p l : Str} (h : strHas p l = true) : ∃ a b, l = a ++ p ++ b := by
  induction l with
  | nil =>
    simp only [strHas, List.isEmpty_iff] at h
    exact ⟨[], [], by simp [h]⟩
  | cons c r ih =>
    simp only [strHas, Bool.or_eq_true] at h
    rcases h with h | h
    · obtain ⟨t, ht⟩ := strStarts_exists h
      exact ⟨[], t, by simp [ht]⟩
    · obtain ⟨a, b, rfl⟩ := ih h
      exact ⟨c :: a, b, rfl⟩

theorem strHas_of_parts (p a b : Str) : strHas p (a ++ p ++ b) = true := by
  induction a with
  | nil =>
    match p with
    | [] => simpa using strHas_nil b
    | c :: ps =>
      have hs : strStarts (c :: ps) ((c :: ps) ++ b) = true := strStarts_append _ _
      simp only [List.nil_append, strHas, Bool.or_eq_true]
      exact Or.inl (by simpa using hs)
  | cons c as ih =>
    simp only [List.cons_append, strHas, Bool.or_eq_true]
    exact Or.inr ih

theorem dropWhile_append_cons (q : Char → Bool) (a : Str) (c : Char) (t : Str)
    (hc : q c = false) : (a ++ c :: t).dropWhile q = a.dropWhile q ++ c :: t := by
  induction a with
  | nil => simp [List.dropWhile_cons, hc]
  | cons d as ih =>
    by_cases hd : q d
    · simp [List.dropWhile_cons, hd, ih]
    · simp [List.dropWhile_cons, hd]

theorem mem_of_mem_dropWhile {q : Char → Bool} {c : Char} {l : Str}
    (h : c ∈ l.dropWhile q) : c ∈ l := by
  induction l with
  | nil => simp at h
  | cons d r ih =>
    by_cases hd : q d
    · rw [List.dropWhile_cons_of_pos hd] at h
      exact List.mem_cons_of_mem d (ih h)
    · rwa [List.dropWhile_cons_of_neg hd] at h

/-- Stripping only removes whitespace at the two ends: around an occurrence of a
nonempty whitespace-free segment `p`, it removes the leading whitespace of the
part before `p` and the trailing whitespace of the part after `p`. -/
theorem pyStrip_decomp (a p b : Str) (hne : p ≠ []) (hsp : ∀ c ∈ p, isSpace c = false) :
    pyStrip (a ++ p ++ b)
      = a.dropWhile isSpace ++ p ++ (b.reverse.dropWhile isSpace).reverse := by
  match p, hne with
  | c :: ps, _ =>
    have hc : isSpace c = false := hsp c (by simp)
    have h1 : (a ++ (c :: ps) ++ b).dropWhile isSpace
        = a.dropWhile isSpace ++ ((c :: ps) ++ b) := by
      have h' := dropWhile_append_cons isSpace a c (ps ++ b) hc
      simpa [List.append_assoc] using h'
    unfold pyStrip
    rw [h1]
    have h3 : (a.dropWhile isSpace ++ ((c :: ps) ++ b)).reverse
        = b.reverse ++ ((c :: ps).reverse ++ (a.dropWhile isSpace).reverse) := by
      simp [List.reverse_append, List.append_assoc]
    rw [h3]
    have h4 : (b.reverse ++ ((c :: ps).reverse ++ (a.dropWhile isSpace).reverse)).dropWhile isSpace
        = b.reverse.dropWhile isSpace ++ ((c :: ps).reverse ++ (a.dropWhile isSpace).reverse) := by
      cases hps : ps.reverse with
      | nil =>
        have hps' : (c :: ps).reverse = [c] := by simp [List.reverse_cons, hps]
        rw [hps']
        exact dropWhile_append_cons isSpace b.reverse c ((a.dropWhile isSpace).reverse) hc
      | cons d ds =>
        have hd : isSpace d = false := by
          have hdps : d ∈ ps := by
            have : d ∈ ps.reverse := by rw [hps]; simp
            simpa using this
          exact hsp d (List.mem_cons_of_mem c hdps)
        have hps' : (c :: ps).reverse = d :: (ds ++ [c]) := by
          simp [List.reverse_cons, hps]
        rw [hps']
        have h' := dropWhile_append_cons isSpace b.reverse d
          (ds ++ [c] ++ (a.dropWhile isSpace).reverse) hd
        simpa [List.append_assoc] using h'
    rw [h4]
    simp [List.reverse_append, List.append_assoc]

/-- Containment of a nonempty whitespace-free segment survives stripping. -/
theorem strHas_pyStrip {p s : Str} (hne : p ≠ []) (hsp : ∀ c ∈ p, isSpace c = false)
    (h : strHas p s = true) : strHas p (pyStrip s) = true := by
  obtain ⟨a, b, rfl⟩ := strHas_parts h
  rw [pyStrip_decomp a p b hne hsp]
  exact strHas_of_parts p _ _

theorem isSpace_upChar (c : Char) : isSpace (upChar c) = isSpace c := by
  unfold upChar
  split <;> rfl

theorem map_upChar_dropWhile (l : Str) :
    (l.map upChar).dropWhile isSpace = (l.dropWhile isSpace).map upChar := by
  induction l with
  | nil => rfl
  | cons c r ih =>
    by_cases hc : isSpace c
    · have hc' : isSpace (upChar c) = true := by rw [isSpace_upChar]; exact hc
      simp [List.dropWhile_cons, hc, hc', ih]
    · have hc' : ¬ isSpace (upChar c) = true := by rw [isSpace_upChar]; simpa using hc
      simp [List.dropWhile_cons, hc, hc']

/-- Upper-casing commutes with stripping (upper-casing never creates or
destroys whitespace). -/
theorem upperStr_pyStrip (l : Str) : upperStr (pyStrip l) = pyStrip (upperStr l) := by
  unfold upperStr pyStrip
  rw [map_upChar_dropWhile]
  rw [← List.map_reverse]
  rw [map_upChar_dropWhile]
  rw [← List.map_reverse]

/-- Claim C5: any line containing a diameter marker (the glyph Ø, or the
tokens "DIA"/"DIAM", or "DIAMETER" case-insensitively) classifies as Diameter
with instrument "DVC", whatever else the line contains (in particular a degree
symbol): the diameter branch is the first branch of the classification chain. -/
theorem c5_diameter_priority (s : Str)
    (h : strHas (chars "Ø") s = true ∨ strHas (chars "DIA") s = true ∨
         strHas (chars "DIAM") s = true ∨ strHas (chars "DIAMETER") (upperStr s) = true) :
    (parse_dimension s).desc = chars "Diameter" ∧ (parse_dimension s).inst = chars "DVC" := by
  have hcond : (strHas (chars "Ø") (pyStrip s) || strHas (chars "DIA") (pyStrip s) ||
      strHas (chars "DIAM") (pyStrip s) ||
      strHas (chars "DIAMETER") (upperStr (pyStrip s))) = true := by
    rcases h with h | h | h | h
    · simp [strHas_pyStrip (by decide) (by decide) h]
    · simp [strHas_pyStrip (by decide) (by decide) h]
    · simp [strHas_pyStrip (by decide) (by decide) h]
    · have h' := strHas_pyStrip (p := chars "DIAMETER") (by decide) (by decide) h
      rw [upperStr_pyStrip]
      simp [h']
  have hcls : classify (pyStrip s) = (chars "Diameter", chars "DVC") := by
    unfold classify
    rw [if_pos hcond]
  constructor
  · show (classify (pyStrip s)).1 = chars "Diameter"
    rw [hcls]
  · show (classify (pyStrip s)).2 = chars "DVC"
    rw [hcls]

/-- Witness for C5 at the concrete line "Ø12.0 45°" (diameter glyph and degree
symbol together). -/
theorem c5_diameter_priority_witness :
    (strHas (chars "Ø") (chars "Ø12.0 45°") = true ∨
     strHas (chars "DIA") (chars "Ø12.0 45°") = true ∨
     strHas (chars "DIAM") (chars "Ø12.0 45°") = true ∨
     strHas (chars "DIAMETER") (upperStr (chars "Ø12.0 45°")) = true) ∧
    ((parse_dimension (chars "Ø12.0 45°")).desc = chars "Diameter" ∧
     (parse_dimension (chars "Ø12.0 45°")).inst = chars "DVC") :=
  ⟨Or.inl (by decide), c5_diameter_priority (chars "Ø12.0 45°") (Or.inl (by decide))⟩

/-!  First-match analysis of the ±-decimal tolerance search, for the amended
form of claim C6. -/

theorem mt1At_cons_ne {c : Char} (r : Str) (hc : c ≠ '±') : mt1At (c :: r) = none := by
  simp [mt1At, hc]

theorem reSearch_cons_none {α : Type} (f : Str → Option α) (c : Char) (y : Str)
    (h : f (c :: y) = none) : reSearch f (c :: y) = reSearch f y := by
  simp only [reSearch, h]

/-- The search skips any prefix free of '±' (every ±-decimal match starts
with '±'). -/
theorem reSearch_mt1_skip : ∀ (a x : Str), '±' ∉ a →
    reSearch mt1At (a ++ x) = reSearch mt1At x := by
  intro a
  induction a with
  | nil => intro x _; rfl
  | cons c as ih =>
    intro x ha
    have hc : c ≠ '±' := fun h => ha (h ▸ List.mem_cons_self c as)
    rw [List.cons_append,
        reSearch_cons_none mt1At c (as ++ x) (mt1At_cons_ne (as ++ x) hc)]
    exact ih x (fun hm => ha (List.mem_cons_of_mem c hm))

theorem chars_p05_append (bb : Str) :
    chars "±0.05" ++ bb = '±' :: '0' :: '.' :: '0' :: '5' :: bb := rfl

/-- At an occurrence of "±0.05" not followed by a digit, the ±-decimal matcher
captures exactly "±0.05". -/
theorem mt1At_at_p05 (bb : Str) (hb : bb.takeWhile isDigit = []) :
    mt1At ('±' :: '0' :: '.' :: '0' :: '5' :: bb) = some (chars "±0.05") := by
  have e1 : isSpace '0' = false := by decide
  have e2 : isDigit '0' = true := by decide
  have e3 : isDigit '.' = false := by decide
  have e4 : isDigit '5' = true := by decide
  simp [mt1At, matchDecAt, e1, e2, e3, e4, hb, List.takeWhile_cons, List.dropWhile_cons]
  decide

theorem tolOf_p05 (a2 b2 : Str) (ha2 : '±' ∉ a2) (hb2 : b2.takeWhile isDigit = []) :
    tolOf (a2 ++ chars "±0.05" ++ b2) = chars "±0.05" := by
  have hsearch : reSearch mt1At (a2 ++ chars "±0.05" ++ b2) = some (chars "±0.05") := by
    rw [List.append_assoc]
    rw [reSearch_mt1_skip a2 (chars "±0.05" ++ b2) ha2]
    rw [chars_p05_append]
    simp only [reSearch, mt1At_at_p05 b2 hb2]
  unfold tolOf
  rw [hsearch]
  show removeSpaces (chars "±0.05") = chars "±0.05"
  decide

/-- Claim C6, amended: for every line of the form a ++ "±0.05" ++ b in which a
contains no '±' and b does not start with a digit, the tolerance is "±0.05";
the original "regardless of other content" fails because the leftmost ±-decimal
match wins (see the counterexample). -/
theorem c6_amended (a b : Str) (ha : '±' ∉ a) (hb : isDigit (b.headD '-') = false) :
    (parse_dimension (a ++ chars "±0.05" ++ b)).tol = chars "±0.05" := by
  show tolOf (pyStrip (a ++ chars "±0.05" ++ b)) = chars "±0.05"
  rw [pyStrip_decomp a (chars "±0.05") b (by decide) (by decide)]
  apply tolOf_p05
  · intro hmem
    exact ha (mem_of_mem_dropWhile hmem)
  · cases hb2 : (b.reverse.dropWhile isSpace).reverse with
    | nil => simp
    | cons c t =>
      have h0 : b.reverse.takeWhile isSpace ++ b.reverse.dropWhile isSpace = b.reverse :=
        List.takeWhile_append_dropWhile isSpace b.reverse
      have h1 : b = (b.reverse.dropWhile isSpace).reverse ++
          (b.reverse.takeWhile isSpace).reverse := by
        have h2 := congrArg List.reverse h0
        rw [List.reverse_append, List.reverse_reverse] at h2
        exact h2.symm
      obtain ⟨z, hz⟩ : ∃ z, b = (c :: t) ++ z :=
        ⟨(b.reverse.takeWhile isSpace).reverse, by rw [← hb2]; exact h1⟩
      have hc : isDigit c = false := by
        rw [hz] at hb
        simpa using hb
      exact List.takeWhile_cons_of_neg (by simp [hc])

/-- Witness for the amended C6 on the concrete line "size ±0.05 mm". -/
theorem c6_amended_witness :
    ('±' ∉ chars "size ") ∧ isDigit ((chars " mm").headD '-') = false ∧
    (parse_dimension (chars "size " ++ chars "±0.05" ++ chars " mm")).tol = chars "±0.05" :=
  ⟨by decide, by decide, c6_amended (chars "size ") (chars " mm") (by decide) (by decide)⟩

/-- Claim C2, amended: strategy fallback is evaluated per page against the
record list accumulated over the whole document; once any record exists, a
later page runs only the plain-text method and appends its rows — so records
recovered by different strategies on different pages can coexist. -/
theorem c2_amended (data : List DimRecord) (pageNum : Nat) (pg : Page)
    (h : data ≠ []) :
    runPage data pageNum pg =
      data ++ (pageTextLines pg).filterMap (processLine pageNum) := by
  match data, h with
  | x :: ds, _ => simp [runPage]

/-- Witness for the amended C2: with one record already accumulated, page
`samplePage2` contributes exactly its plain-text rows. -/
theorem c2_amended_witness :
    ([sampleRecord] : List DimRecord) ≠ [] ∧
    runPage [sampleRecord] 2 samplePage2 =
      [sampleRecord] ++ (pageTextLines samplePage2).filterMap (processLine 2) :=
  ⟨by decide, c2_amended [sampleRecord] 2 samplePage2 (by decide)⟩

/-!  Every extracted record's item number is the value of a digit run, hence
nonnegative (amended claim C7). -/

theorem processLine_nonneg (n : Nat) (l : Str) (r : DimRecord)
    (h : processLine n l = some r) : 0 ≤ r.itemNumber := by
  simp only [processLine] at h
  split at h
  · cases h
  · cases hb : balloonScan (pyStrip l) with
    | none => rw [hb] at h; cases h
    | some v =>
      obtain ⟨k, t⟩ := v
      rw [hb] at h
      cases h
      show (0 : Int) ≤ (recordOf n k t).itemNumber
      simp only [recordOf]
      exact Int.natCast_nonneg k

theorem pageRecords_nonneg (n : Nat) (lines : List Str) (r : DimRecord)
    (h : r ∈ lines.filterMap (processLine n)) : 0 ≤ r.itemNumber := by
  rw [List.mem_filterMap] at h
  obtain ⟨l, _, hl⟩ := h
  exact processLine_nonneg n l r hl

theorem runPage_nonneg (data : List DimRecord) (n : Nat) (pg : Page)
    (hd : ∀ x ∈ data, 0 ≤ x.itemNumber) :
    ∀ r ∈ runPage data n pg, 0 ≤ r.itemNumber := by
  intro r hr
  simp only [runPage] at hr
  split at hr
  · split at hr
    · rcases List.mem_append.mp hr with hr1 | hr3
      · rcases List.mem_append.mp hr1 with hr0 | hr2
        · rcases List.mem_append.mp hr0 with hra | hrb
          · exact hd r hra
          · exact pageRecords_nonneg _ _ _ hrb
        · exact pageRecords_nonneg _ _ _ hr2
      · exact pageRecords_nonneg _ _ _ hr3
    · rcases List.mem_append.mp hr with hr1 | hr2
      · rcases List.mem_append.mp hr1 with hra | hrb
        · exact hd r hra
        · exact pageRecords_nonneg _ _ _ hrb
      · exact pageRecords_nonneg _ _ _ hr2
  · rcases List.mem_append.mp hr with hra | hrb
    · exact hd r hra
    · exact pageRecords_nonneg _ _ _ hrb

theorem extractAux_nonneg : ∀ (doc : List Page) (data : List DimRecord) (n : Nat),
    (∀ x ∈ data, 0 ≤ x.itemNumber) →
    ∀ r ∈ extractAux data n doc, 0 ≤ r.itemNumber := by
  intro doc
  induction doc with
  | nil => intro data n hd r hr; exact hd r hr
  | cons pg rest ih =>
    intro data n hd r hr
    exact ih (runPage data n pg) (n + 1) (runPage_nonneg data n pg hd) r hr

/-- Claim C7, amended: every extracted record's itemNumber is a nonnegative
integer (zero is reachable, see the counterexample). -/
theorem c7_amended (doc : List Page) (r : DimRecord)
    (h : r ∈ extract_dimensions_from_pdf doc) : 0 ≤ r.itemNumber :=
  extractAux_nonneg doc [] 1 (fun x hx => absurd hx (List.not_mem_nil x)) r h

/-- Witness for the amended C7 at the record extracted from `sampleDocZero`. -/
theorem c7_amended_witness :
    zeroRecord ∈ extract_dimensions_from_pdf sampleDocZero ∧ 0 ≤ zeroRecord.itemNumber :=
  ⟨by decide, c7_amended sampleDocZero zeroRecord (by decide)⟩

/-- Claim C3, amended: when the first segmentation pattern matches but its
trimmed remainder is not longer than one character, that pattern yields no
record yet the line is NOT discarded: patterns 2 and 3 cannot match such a
line (they need '(' or a separator where pattern 1 saw a digit and
whitespace), and the loose fourth pattern is still tried — the line's record,
if any, comes from it. -/
theorem c3_amended (pageNum : Nat) (l d g : Str)
    (h1 : match1 (pyStrip l) = some (d, g)) (h2 : (pyStrip g).length ≤ 1) :
    processLine pageNum l = none ∨
    ∃ d2 g2, match4 (pyStrip l) = some (d2, g2) ∧ 1 < (pyStrip g2).length ∧
      processLine pageNum l = some (recordOf pageNum (digitsToNat d2) (pyStrip g2)) := by
  cases hE1 : ((pyStrip l).takeWhile isDigit).isEmpty with
  | true =>
    rw [show match1 (pyStrip l) = none from by simp [match1, hE1]] at h1
    cases h1
  | false =>
    cases hE2 : (((pyStrip l).dropWhile isDigit).takeWhile isSpace).isEmpty with
    | true =>
      rw [show match1 (pyStrip l) = none from by simp [match1, hE1, hE2]] at h1
      cases h1
    | false =>
      obtain ⟨c, t, hL⟩ : ∃ c t, pyStrip l = c :: t := by
        cases hP : pyStrip l with
        | nil => rw [hP] at hE1; simp at hE1
        | cons c t => exact ⟨c, t, rfl⟩
      have hcdig : isDigit c = true := by
        by_contra hcd
        rw [hL, List.takeWhile_cons_of_neg (by simpa using hcd)] at hE1
        simp at hE1
      obtain ⟨c0, r0, hD⟩ : ∃ c0 r0, (pyStrip l).dropWhile isDigit = c0 :: r0 := by
        cases hP : (pyStrip l).dropWhile isDigit with
        | nil => rw [hP] at hE2; simp at hE2
        | cons c0 r0 => exact ⟨c0, r0, rfl⟩
      have hc0sp : isSpace c0 = true := by
        by_contra hcs
        rw [hD, List.takeWhile_cons_of_neg (by simpa using hcs)] at hE2
        simp at hE2
      have hm2 : match2 (pyStrip l) = none := by
        have hcne : c ≠ '(' := by
          intro hEq
          rw [hEq] at hcdig
          exact absurd hcdig (by decide)
        rw [hL]
        simp [match2, hcne]
      have hm3 : match3 (pyStrip l) = none := by
        have hnotsep : ¬ (c0 = '.' ∨ c0 = '-' ∨ c0 = ':') := by
          intro hsep
          rcases hsep with hEq | hEq | hEq <;>
            (rw [hEq] at hc0sp; exact absurd hc0sp (by decide))
        simp [match3, hE1, hD, hnotsep]
      have ht1 : tryPat (match1 (pyStrip l)) = none := by
        rw [h1]
        simp only [tryPat]
        rw [if_neg (by omega)]
      have htnone : tryPat (none : Option (Str × Str)) = none := rfl
      have hscan : balloonScan (pyStrip l) = tryPat (match4 (pyStrip l)) := by
        simp only [balloonScan, ht1, hm2, hm3, htnone]
      have hne : (pyStrip l).isEmpty = false := by rw [hL]; rfl
      cases hm4 : match4 (pyStrip l) with
      | none =>
        left
        simp [processLine, hne, hscan, hm4, tryPat]
      | some v =>
        obtain ⟨d2, g2⟩ := v
        by_cases hlen : 1 < (pyStrip g2).length
        · right
          refine ⟨d2, g2, rfl, hlen, ?_⟩
          have hfinal : balloonScan (pyStrip l) =
              some (digitsToNat d2, pyStrip g2) := by
            rw [hscan, hm4]
            simp only [tryPat]
            rw [if_pos hlen]
          simp [processLine, hne, hfinal]
        · left
          simp [processLine, hne, hscan, hm4, tryPat, hlen]

/-- Witness for the amended C3 at the line "1 ±" + line break + "ABCD". -/
theorem c3_amended_witness :
    match1 (pyStrip (chars "1 ±\nABCD")) = some (chars "1", chars "±") ∧
    (pyStrip (chars "±")).length ≤ 1 ∧
    (processLine 1 (chars "1 ±\nABCD") = none ∨
     ∃ d2 g2, match4 (pyStrip (chars "1 ±\nABCD")) = some (d2, g2) ∧
       1 < (pyStrip g2).length ∧
       processLine 1 (chars "1 ±\nABCD") =
         some (recordOf 1 (digitsToNat d2) (pyStrip g2))) :=
  ⟨by decide, by decide,
   c3_amended 1 (chars "1 ±\nABCD") (chars "1") (chars "±") (by decide) (by decide)⟩

end DrawingExtractor
